import Mathlib

/-!
Verification of the secure command-construction and execution layer of the
lagoon-cli-wrapper repository.

The JavaScript sources are shallowly embedded:
* strings that may also be `null`/`undefined` become the type `JsStr`;
* thrown errors become an `Except JsError` result;
* the external world (process spawning via `child_process.execFile`, and
  `JSON.parse` of its output) is a function parameter, and every spawn that
  actually happens is recorded in a list of `SpawnCall`s, so that
  "fail-closed, no process spawned" is the statement that this list is empty.
-/

/-- A JavaScript value that is expected to be a string but may be
`null` or `undefined` (the three cases the sources actually distinguish
via truthiness checks and `===` comparisons). -/
inductive JsStr where
  | str (s : String)
  | jsNull
  | jsUndefined
deriving DecidableEq, Repr

/-- JavaScript string coercion, as performed by template literals and by
`RegExp.test`: `String(null) = "null"`, `String(undefined) = "undefined"`. -/
def toJsString : JsStr → String
  | .str s => s
  | .jsNull => "null"
  | .jsUndefined => "undefined"

/-- JavaScript truthiness of such a value: `''`, `null` and `undefined`
are falsy, every other string is truthy. -/
def JsStr.truthy : JsStr → Bool
  | .str s => if s = "" then false else true
  | .jsNull => false
  | .jsUndefined => false

/-- A thrown JavaScript error: `new Error(msg)` carries its message; a
`TypeError` arises from a member access on a nullish value. -/
inductive JsError where
  | error (msg : String)
  | typeError
deriving DecidableEq, Repr

/-- The `.message` property read when an error is re-wrapped. -/
def JsError.message : JsError → String
  | .error m => m
  | .typeError => "TypeError"

/-- JavaScript `String.prototype.startsWith`, on the character list. -/
def jsStartsWith (s pre : String) : Bool :=
  pre.data.isPrefixOf s.data

/-- Splits a character list at the first occurrence of `pat`: returns the
part strictly before the match and the part strictly after it, or `none`
when `pat` does not occur. -/
def splitAtSub (pat : List Char) : List Char → Option (List Char × List Char)
  | [] => if pat.isPrefixOf [] then some ([], []) else none
  | c :: rest =>
    if pat.isPrefixOf (c :: rest) then some ([], (c :: rest).drop pat.length)
    else
      match splitAtSub pat rest with
      | some (pre, suf) => some (c :: pre, suf)
      | none => none

/-- JavaScript `String.prototype.includes`: the pattern occurs somewhere. -/
def jsIncludes (s pat : String) : Bool :=
  (splitAtSub pat.data s.data).isSome

/-- JavaScript `String.prototype.endsWith`, on the character list. -/
def jsEndsWith (s pat : String) : Bool :=
  pat.data.isPrefixOf (s.data.drop (s.data.length - pat.data.length))

/-- JavaScript `String.prototype.replace` with a plain-string pattern:
replaces only the first occurrence of `pat` by `repl`, and returns the
string unchanged when `pat` does not occur. -/
def replaceFirst (s pat repl : String) : String :=
  match splitAtSub pat.data s.data with
  | some (pre, suf) => ⟨pre ++ repl.data ++ suf⟩
  | none => s

/-- Source `src/command/GitCommand.mjs`, class `LagoonCommand`: a base
executable name plus an ordered argument list, built by chained
configurators. -/
structure LagoonCommand where
  baseCommand : String
  args : List String
deriving DecidableEq, Repr

/-- Constructor of `LagoonCommand`: base command `lagoon`, empty args. -/
def LagoonCommand.new : LagoonCommand :=
  { baseCommand := "lagoon", args := [] }

/-- `withInstance(instance)`: pushes `-l, instance` if the value is truthy. -/
def LagoonCommand.withInstance (c : LagoonCommand) (inst : JsStr) : LagoonCommand :=
  if inst.truthy then { c with args := c.args ++ ["-l", toJsString inst] } else c

/-- `withProject(project)`: pushes `-p, project` if the value is truthy. -/
def LagoonCommand.withProject (c : LagoonCommand) (project : JsStr) : LagoonCommand :=
  if project.truthy then { c with args := c.args ++ ["-p", toJsString project] } else c

/-- `withEnvironment(environment)`: pushes `-e, environment` if truthy. -/
def LagoonCommand.withEnvironment (c : LagoonCommand) (environment : JsStr) : LagoonCommand :=
  if environment.truthy then { c with args := c.args ++ ["-e", toJsString environment] } else c

/-- `withJsonOutput()`: pushes `--output-json`. -/
def LagoonCommand.withJsonOutput (c : LagoonCommand) : LagoonCommand :=
  { c with args := c.args ++ ["--output-json"] }

/-- `withForce()`: pushes `--force`. -/
def LagoonCommand.withForce (c : LagoonCommand) : LagoonCommand :=
  { c with args := c.args ++ ["--force"] }

/-- `listConfigs()`: pushes `config, list`. -/
def LagoonCommand.listConfigs (c : LagoonCommand) : LagoonCommand :=
  { c with args := c.args ++ ["config", "list"] }

/-- `listProjects()`: pushes `list, projects`. -/
def LagoonCommand.listProjects (c : LagoonCommand) : LagoonCommand :=
  { c with args := c.args ++ ["list", "projects"] }

/-- `listEnvironments()`: pushes `list, environments`. -/
def LagoonCommand.listEnvironments (c : LagoonCommand) : LagoonCommand :=
  { c with args := c.args ++ ["list", "environments"] }

/-- `listUsers()`: pushes `list, all-users`. -/
def LagoonCommand.listUsers (c : LagoonCommand) : LagoonCommand :=
  { c with args := c.args ++ ["list", "all-users"] }

/-- `deleteEnvironment(environmentName)`: pushes the delete verb tokens if
the value is truthy. -/
def LagoonCommand.deleteEnvironment (c : LagoonCommand) (environmentName : JsStr) : LagoonCommand :=
  if environmentName.truthy then
    { c with args := c.args ++ ["delete", "environment", "--environment", toJsString environmentName] }
  else c

/-- `deployBranch(branchName)`: pushes the deploy verb tokens if truthy. -/
def LagoonCommand.deployBranch (c : LagoonCommand) (branchName : JsStr) : LagoonCommand :=
  if branchName.truthy then
    { c with args := c.args ++ ["deploy", "branch", "--branch", toJsString branchName] }
  else c

/-- `login()`: pushes `login`. -/
def LagoonCommand.login (c : LagoonCommand) : LagoonCommand :=
  { c with args := c.args ++ ["login"] }

/-- `ssh(command)`: pushes `ssh, -C, command` if the value is truthy. -/
def LagoonCommand.ssh (c : LagoonCommand) (command : JsStr) : LagoonCommand :=
  if command.truthy then { c with args := c.args ++ ["ssh", "-C", toJsString command] } else c

/-- `getArgs()` accessor. -/
def LagoonCommand.getArgs (c : LagoonCommand) : List String :=
  c.args

/-- `getBaseCommand()` accessor. -/
def LagoonCommand.getBaseCommand (c : LagoonCommand) : String :=
  c.baseCommand

/-- `toString()`: the space-joined display string, documented log-only. -/
def LagoonCommand.toDisplayString (c : LagoonCommand) : String :=
  c.baseCommand ++ " " ++ String.intercalate " " c.args

/-- Source `src/command/GitCommand.mjs`, class `GitCommand`. -/
structure GitCommand where
  baseCommand : String
  args : List String
deriving DecidableEq, Repr

/-- Constructor of `GitCommand`: base command `git`, empty args. -/
def GitCommand.new : GitCommand :=
  { baseCommand := "git", args := [] }

/-- `lsRemote(gitUrl)`: assigns `[ls-remote, --heads, gitUrl]` if truthy. -/
def GitCommand.lsRemote (c : GitCommand) (gitUrl : JsStr) : GitCommand :=
  if gitUrl.truthy then { c with args := ["ls-remote", "--heads", toJsString gitUrl] } else c

/-- `getArgs()` accessor of `GitCommand`. -/
def GitCommand.getArgs (c : GitCommand) : List String :=
  c.args

/-- `toString()` of `GitCommand`: the space-joined display string. -/
def GitCommand.toDisplayString (c : GitCommand) : String :=
  c.baseCommand ++ " " ++ String.intercalate " " c.args

/-- Claim C5: building a cluster-CLI command via
`withInstance('a').withProject('b').listEnvironments().withJsonOutput()`
and reading `getArgs()` yields exactly
`['-l','a','-p','b','list','environments','--output-json']`, in that order. -/
theorem c5_builder_round_trip :
    ((((LagoonCommand.new.withInstance (.str "a")).withProject (.str "b")).listEnvironments).withJsonOutput).getArgs
      = ["-l", "a", "-p", "b", "list", "environments", "--output-json"] := by
  decide

/-- Claim C6: every falsy input (`''`, `null`, `undefined`) to any
value-taking configurator (`withInstance`, `withProject`, `withEnvironment`,
`deleteEnvironment`, `deployBranch`, `ssh` of `LagoonCommand`, and
`lsRemote` of `GitCommand`) leaves the argument list unchanged and raises
no error. -/
theorem c6_falsy_configurators_identity (v : JsStr) (h : v.truthy = false) :
    (∀ c : LagoonCommand, (c.withInstance v).args = c.args) ∧
    (∀ c : LagoonCommand, (c.withProject v).args = c.args) ∧
    (∀ c : LagoonCommand, (c.withEnvironment v).args = c.args) ∧
    (∀ c : LagoonCommand, (c.deleteEnvironment v).args = c.args) ∧
    (∀ c : LagoonCommand, (c.deployBranch v).args = c.args) ∧
    (∀ c : LagoonCommand, (c.ssh v).args = c.args) ∧
    (∀ g : GitCommand, (g.lsRemote v).args = g.args) := by
  refine ⟨?_, ?_, ?_, ?_, ?_, ?_, ?_⟩ <;>
    intro c <;>
    simp [LagoonCommand.withInstance, LagoonCommand.withProject,
      LagoonCommand.withEnvironment, LagoonCommand.deleteEnvironment,
      LagoonCommand.deployBranch, LagoonCommand.ssh, GitCommand.lsRemote, h]

/-- Witness for C6: the empty string is falsy, and `withInstance('')`
appends nothing to a fresh command. -/
theorem c6_falsy_configurators_identity_witness :
    (LagoonCommand.new.withInstance (.str "")).args = LagoonCommand.new.args :=
  (c6_falsy_configurators_identity (.str "") (by decide)).1 LagoonCommand.new

/-- The `{ stdout, stderr }` record resolved by `execFile`. -/
structure ExecutionResult where
  stdout : String
  stderr : String
deriving DecidableEq, Repr

/-- A recorded invocation of the process-spawn primitive
(`child_process.execFile`): the executable name and the discrete argument
vector it was handed. -/
abbrev SpawnCall := String × List String

/-- The logging collaborator as the Executor observes it: whether
`logAction` and `logError` are present as functions
(the source tests `typeof this.logger.logAction === 'function'`). -/
structure Logger where
  hasLogAction : Bool
  hasLogError : Bool
deriving DecidableEq, Repr

/-- An observable side effect of one `LagoonExecutor.execute` run. -/
inductive ExecEvent where
  | spawn (exe : String) (args : List String)
  | logActionCall (action display result : String)
  | logErrorCall (action display : String) (err : JsError)
deriving DecidableEq, Repr

/-- Projects the spawn events of a trace to spawn calls. -/
def spawnCallsOf (tr : List ExecEvent) : List SpawnCall :=
  tr.filterMap fun e =>
    match e with
    | .spawn exe args => some (exe, args)
    | _ => none

/-- The command object as the Executor consumes it (duck typing): only the
three accessors the Executor actually calls. -/
structure CommandLike where
  getBaseCommand : String
  getArgs : List String
  toDisplayString : String
deriving DecidableEq, Repr

/-- View of a `LagoonCommand` through the Executor's accessors. -/
def LagoonCommand.toLike (c : LagoonCommand) : CommandLike :=
  { getBaseCommand := c.baseCommand, getArgs := c.args,
    toDisplayString := c.toDisplayString }

/-- View of a `GitCommand` through the Executor's accessors. -/
def GitCommand.toLike (c : GitCommand) : CommandLike :=
  { getBaseCommand := c.baseCommand, getArgs := c.args,
    toDisplayString := c.toDisplayString }

/-- Source `LagoonExecutor.execute` (unnamed part_003): reads
`getBaseCommand()` and `getArgs()`, spawns via `execFileAsync(base, args)`,
logs success or failure through the optional logging collaborator using the
display string `command.toString()`, and re-raises any error.  The external
process is the function `world`; the returned trace records every side
effect in order. -/
def LagoonExecutor.execute (world : String → List String → Except JsError ExecutionResult)
    (logger : Option Logger) (command : CommandLike) (action : String) :
    List ExecEvent × Except JsError ExecutionResult :=
  let baseCommand := command.getBaseCommand
  let args := command.getArgs
  match world baseCommand args with
  | .ok result =>
    (ExecEvent.spawn baseCommand args ::
      (if (logger.map Logger.hasLogAction).getD false then
        [ExecEvent.logActionCall action command.toDisplayString "Success"]
      else []),
     .ok result)
  | .error e =>
    (ExecEvent.spawn baseCommand args ::
      (if (logger.map Logger.hasLogError).getD false then
        [ExecEvent.logErrorCall action command.toDisplayString e]
      else []),
     .error e)

/-- Claim C1: the Executor spawns exactly the command's base executable
name with its argument list as a discrete vector; the space-joined display
string appears only in logging events, and changing the display string
alone changes neither the spawn calls nor the returned result. -/
theorem c1_executor_spawns_discrete_vector
    (world : String → List String → Except JsError ExecutionResult)
    (logger : Option Logger) (command : CommandLike) (action : String) :
    spawnCallsOf (LagoonExecutor.execute world logger command action).1
        = [(command.getBaseCommand, command.getArgs)] ∧
    (∀ a d r, ExecEvent.logActionCall a d r ∈ (LagoonExecutor.execute world logger command action).1 →
        d = command.toDisplayString) ∧
    (∀ a d e, ExecEvent.logErrorCall a d e ∈ (LagoonExecutor.execute world logger command action).1 →
        d = command.toDisplayString) ∧
    (∀ d, spawnCallsOf (LagoonExecutor.execute world logger { command with toDisplayString := d } action).1
        = spawnCallsOf (LagoonExecutor.execute world logger command action).1 ∧
      (LagoonExecutor.execute world logger { command with toDisplayString := d } action).2
        = (LagoonExecutor.execute world logger command action).2) := by
  unfold LagoonExecutor.execute
  cases h : world command.getBaseCommand command.getArgs <;>
    constructor <;>
    simp_all [spawnCallsOf, List.filterMap] <;>
    split <;>
    simp_all

/-- Claim C4: on spawn failure the Executor invokes the logging
collaborator's failure path with the action label, the display string and
the error, then re-raises the error to the caller; a logging collaborator
that is absent or missing `logError` is tolerated — logging is silently
skipped and the outcome is unchanged. -/
theorem c4_executor_failure_logged_and_reraised
    (world : String → List String → Except JsError ExecutionResult)
    (logger : Option Logger) (command : CommandLike) (action : String) (e : JsError)
    (hfail : world command.getBaseCommand command.getArgs = .error e) :
    (LagoonExecutor.execute world logger command action).2 = .error e ∧
    (∀ l, logger = some l → l.hasLogError = true →
      ExecEvent.logErrorCall action command.toDisplayString e
        ∈ (LagoonExecutor.execute world logger command action).1) ∧
    ((logger = none ∨ ∃ l, logger = some l ∧ l.hasLogError = false) →
      (LagoonExecutor.execute world logger command action).1
        = [ExecEvent.spawn command.getBaseCommand command.getArgs]) ∧
    (∀ lg lg' : Option Logger,
      (LagoonExecutor.execute world lg command action).2
        = (LagoonExecutor.execute world lg' command action).2 ∧
      spawnCallsOf (LagoonExecutor.execute world lg command action).1
        = spawnCallsOf (LagoonExecutor.execute world lg' command action).1) := by
  refine ⟨?_, ?_, ?_, ?_⟩
  · simp [LagoonExecutor.execute, hfail]
  · intro l hl hle
    simp [LagoonExecutor.execute, hfail, hl, hle]
  · rintro (hl | ⟨l, hl, hle⟩)
    · simp [LagoonExecutor.execute, hfail, hl]
    · simp [LagoonExecutor.execute, hfail, hl, hle]
  · intro lg lg'
    constructor
    · simp [LagoonExecutor.execute, hfail]
    · simp only [LagoonExecutor.execute, hfail, spawnCallsOf, List.filterMap]
      split <;> split <;> rfl

/-- Witness for C4: with a world whose spawn fails with message `boom`, a
logger having both methods, and a concrete command, the error is re-raised. -/
theorem c4_executor_failure_logged_and_reraised_witness :
    (LagoonExecutor.execute (fun _ _ => .error (.error "boom"))
      (some { hasLogAction := true, hasLogError := true })
      (LagoonCommand.new.listProjects).toLike "List Projects").2
      = .error (.error "boom") :=
  (c4_executor_failure_logged_and_reraised (fun _ _ => .error (.error "boom"))
    (some { hasLogAction := true, hasLogError := true })
    (LagoonCommand.new.listProjects).toLike "List Projects" (.error "boom") rfl).1

/-- The value produced by `JSON.parse` on a command's stdout, abstracted to
the four observations the sources make of it: the `.result` field compared
with `===` against a string, the `.message` field (possibly absent or
empty), the template-literal coercion of the whole value, and its
`JSON.stringify` rendering. -/
structure JsResponse where
  result : Option String
  message : JsStr
  templateStr : String
  jsonStr : String
deriving DecidableEq, Repr

/-- The inline deletion-protection check at the top of `deleteEnvironment`
in `src/lagoon-api.mjs`: three `===` comparisons followed by
`environment.startsWith('project/')`.  On a nullish value the `===`
comparisons are all false and the `startsWith` member access throws a
`TypeError`. -/
def deleteProtectionCheck : JsStr → Except JsError Bool
  | .str s =>
    .ok (s = "production" || s = "master" || s = "develop" || jsStartsWith s "project/")
  | .jsNull => .error .typeError
  | .jsUndefined => .error .typeError

/-- The deletion-protection predicate on actual strings, as the check
computes it for a string input. -/
def isDeletionProtected (s : String) : Bool :=
  s = "production" || s = "master" || s = "develop" || jsStartsWith s "project/"

/-- Source `deleteEnvironment` of `src/lagoon-api.mjs`: the protection
check (outside the try block), then command construction, a single spawn,
JSON parse of stdout, and the `result === 'success'` check; every error
thrown inside the try block is re-wrapped as
`Failed to delete environment <env>: <message>`.  Returns the recorded
spawn calls and the outcome. -/
def deleteEnvironmentRun (world : String → List String → Except JsError ExecutionResult)
    (jsonParse : String → Except JsError JsResponse)
    (inst project environment : JsStr) : List SpawnCall × Except JsError Bool :=
  match deleteProtectionCheck environment with
  | .error e => ([], .error e)
  | .ok true =>
    ([], .error (.error ("Cannot delete protected environment: " ++ toJsString environment)))
  | .ok false =>
    let command := ((((LagoonCommand.new.withInstance inst).withProject project).deleteEnvironment
      environment).withForce).withJsonOutput
    let wrap : String → JsError := fun m =>
      .error ("Failed to delete environment " ++ toJsString environment ++ ": " ++ m)
    ([(command.baseCommand, command.args)],
     match world command.baseCommand command.args with
     | .error e => .error (wrap e.message)
     | .ok r =>
       match jsonParse r.stdout with
       | .error e => .error (wrap e.message)
       | .ok resp =>
         if resp.result = some "success" then .ok true
         else .error (wrap ("Failed to delete environment " ++ toJsString environment ++ ": "
           ++ resp.templateStr)))

/-- Counterexample to claim C2: on a `null` environment name the
deletion-protection check itself throws a `TypeError` (from
`null.startsWith`), so the check does not "never throw" for every input
including null, and `deleteEnvironment` raises an error that is not the
protected-environment validation error even though `null` matches none of
the protected names. -/
theorem c2_null_check_throws_counterexample :
    deleteEnvironmentRun (fun _ _ => .ok ⟨"", ""⟩)
        (fun _ => .ok ⟨some "success", .jsUndefined, "[object Object]", "x"⟩)
        (.str "i") (.str "p") .jsNull
      = ([], .error .typeError) := by
  rfl

/-- Claim C2 (amended): for every actual string environment name,
including the empty string, the deletion-protection check never throws,
and `deleteEnvironment` raises the protected-environment validation error
with no process spawned if and only if the name equals `production`,
`master`, or `develop`, or starts with `project/`; a nullish environment
name instead makes the check itself throw a `TypeError`, still before any
process is spawned. -/
theorem c2_deletion_protection_amended
    (world : String → List String → Except JsError ExecutionResult)
    (jsonParse : String → Except JsError JsResponse) (inst project : JsStr) :
    (∀ s : String, deleteProtectionCheck (.str s) = .ok (isDeletionProtected s)) ∧
    (∀ s : String,
      ((deleteEnvironmentRun world jsonParse inst project (.str s)).1 = [] ∧
       (deleteEnvironmentRun world jsonParse inst project (.str s)).2
         = .error (.error ("Cannot delete protected environment: " ++ s)))
      ↔ isDeletionProtected s = true) ∧
    (deleteEnvironmentRun world jsonParse inst project .jsNull = ([], .error .typeError)) ∧
    (deleteEnvironmentRun world jsonParse inst project .jsUndefined = ([], .error .typeError)) := by
  refine ⟨fun s => rfl, fun s => ?_, rfl, rfl⟩
  constructor
  · intro ⟨h1, _⟩
    by_contra hprot
    have hprot' : isDeletionProtected s = false := by
      cases h : isDeletionProtected s
      · rfl
      · exact absurd h hprot
    unfold deleteEnvironmentRun at h1
    rw [show deleteProtectionCheck (.str s) = .ok (isDeletionProtected s) from rfl,
      hprot'] at h1
    simp at h1
  · intro hprot
    unfold deleteEnvironmentRun
    rw [show deleteProtectionCheck (.str s) = .ok (isDeletionProtected s) from rfl, hprot]
    exact ⟨rfl, rfl⟩

/-- The login-link protection predicate on strings: only `production` and
`master` (the inline check in `generateLoginLink`). -/
def isLoginLinkProtected (s : String) : Bool :=
  s = "production" || s = "master"

/-- Source `generateLoginLink` of `src/lagoon-api.mjs`: two `===`
comparisons guard the operation (outside the try block); otherwise a
single `lagoon ssh` command is spawned and its stdout trimmed; execution
errors are re-wrapped as
`Failed to generate login link for environment <env>: <message>`. -/
def generateLoginLinkRun (world : String → List String → Except JsError ExecutionResult)
    (inst project environment : JsStr) : List SpawnCall × Except JsError String :=
  if environment = JsStr.str "production" ∨ environment = JsStr.str "master" then
    ([], .error (.error ("Cannot generate login link for protected environment: "
      ++ toJsString environment)))
  else
    let command := (((LagoonCommand.new.withInstance inst).withProject project).withEnvironment
      environment).ssh (.str "drush user:unblock --uid=1 && drush uli")
    ([(command.baseCommand, command.args)],
     match world command.baseCommand command.args with
     | .error e => .error (.error ("Failed to generate login link for environment "
         ++ toJsString environment ++ ": " ++ e.message))
     | .ok r => .ok r.stdout.trim)

/-- Claim C7: `generateLoginLink` raises its protection error, with no
process spawned, exactly for the names `production` and `master`; this
predicate is strictly narrower than deletion protection: every
login-link-protected name is deletion-protected, while `develop` and
`project/`-prefixed names are deletion-protected yet eligible for login
links (a spawn does happen for them). -/
theorem c7_login_protection_narrower
    (world : String → List String → Except JsError ExecutionResult)
    (inst project : JsStr) :
    (∀ environment : JsStr,
      ((generateLoginLinkRun world inst project environment).1 = [] ∧
       (generateLoginLinkRun world inst project environment).2
         = .error (.error ("Cannot generate login link for protected environment: "
             ++ toJsString environment)))
      ↔ (environment = JsStr.str "production" ∨ environment = JsStr.str "master")) ∧
    (∀ s : String, isLoginLinkProtected s = true → isDeletionProtected s = true) ∧
    (isDeletionProtected "develop" = true ∧ isLoginLinkProtected "develop" = false) ∧
    (isDeletionProtected "project/x" = true ∧ isLoginLinkProtected "project/x" = false) ∧
    (∀ s : String, isLoginLinkProtected s = false →
      (generateLoginLinkRun world inst project (.str s)).1 ≠ []) := by
  refine ⟨fun environment => ?_, fun s h => ?_, by decide, by decide, fun s h => ?_⟩
  · constructor
    · intro ⟨h1, _⟩
      by_contra hname
      rw [generateLoginLinkRun, if_neg hname] at h1
      simp at h1
    · intro hname
      rw [generateLoginLinkRun, if_pos hname]
      exact ⟨rfl, rfl⟩
  · simp only [isLoginLinkProtected, Bool.or_eq_true, decide_eq_true_eq] at h
    simp [isDeletionProtected]
    rcases h with h | h <;> simp [h]
  · have hname : ¬(JsStr.str s = JsStr.str "production" ∨ JsStr.str s = JsStr.str "master") := by
      intro hc
      rcases hc with hc | hc <;> injection hc with hc <;> subst hc <;>
        simp [isLoginLinkProtected] at h
    rw [generateLoginLinkRun, if_neg hname]
    simp

/-- Witness for C7: at the eligible-but-deletion-protected name `develop`,
with a concrete world, the theorem applies and a spawn does occur. -/
theorem c7_login_protection_narrower_witness :
    (generateLoginLinkRun (fun _ _ => .ok ⟨"", ""⟩) (.str "i") (.str "p") (.str "develop")).1
      ≠ [] :=
  (c7_login_protection_narrower (fun _ _ => .ok ⟨"", ""⟩) (.str "i") (.str "p")).2.2.2.2
    "develop" (by decide)

/-- A character of the branch-name character class a-z, A-Z, 0-9, underscore, period, slash, hyphen. -/
def branchCharOk (c : Char) : Bool :=
  c.isAlpha || c.isDigit || c = '_' || c = '.' || c = '/' || c = '-'

/-- The JavaScript test of the branch-name regex (anchored, one-or-more characters of the class): true iff the
(coerced) string is non-empty and every character lies in the class.  The
`+` quantifier is what rejects the empty string. -/
def branchRegexTest (s : String) : Bool :=
  !(s = "") && s.data.all branchCharOk

/-- The validation message thrown by `deployBranch` on an invalid branch
name. -/
def invalidBranchNameMsg : String :=
  "Invalid branch name. Branch names must contain only alphanumeric characters, slashes, underscores, hyphens, and periods."

/-- The `{ success, message }` object returned by a successful
`deployBranch`. -/
structure DeployResult where
  success : Bool
  message : String
deriving DecidableEq, Repr

/-- Source `deployBranch` of `src/lagoon-api.mjs`: the regex validation
runs first (inside the try block, so its error is re-wrapped by the outer
catch), then the command is built and spawned once, the stdout JSON
parsed, and the `result` field classified three ways
(`success` / `error` / unexpected). -/
def deployBranchRun (world : String → List String → Except JsError ExecutionResult)
    (jsonParse : String → Except JsError JsResponse)
    (inst project branch : JsStr) : List SpawnCall × Except JsError DeployResult :=
  let wrap : String → JsError := fun m =>
    .error ("Failed to deploy branch " ++ toJsString branch ++ ": " ++ m)
  if branchRegexTest (toJsString branch) = false then
    ([], .error (wrap invalidBranchNameMsg))
  else
    let command := (((LagoonCommand.new.withInstance inst).withProject project).deployBranch
      branch).withJsonOutput
    ([(command.baseCommand, command.args)],
     match world command.baseCommand command.args with
     | .error e => .error (wrap e.message)
     | .ok r =>
       match jsonParse r.stdout with
       | .error e => .error (wrap e.message)
       | .ok resp =>
         if resp.result = some "success" then
           .ok ⟨true, "Branch " ++ toJsString branch ++ " is being deployed to "
             ++ toJsString project⟩
         else if resp.result = some "error" then
           .error (wrap ("Failed to deploy branch " ++ toJsString branch ++ ": "
             ++ (if resp.message.truthy then toJsString resp.message else resp.jsonStr)))
         else
           .error (wrap ("Unexpected response when deploying branch " ++ toJsString branch
             ++ ": " ++ resp.jsonStr)))

/-- Counterexample to claim C3: for the empty branch name every character
vacuously matches the allowed class, yet `deployBranch` rejects it (the
regex `+` demands at least one character): with a benign world the run
spawns nothing and raises the invalid-branch-name error. -/
theorem c3_empty_branch_counterexample :
    (∀ c ∈ ("" : String).data, branchCharOk c = true) ∧
    deployBranchRun (fun _ _ => .ok ⟨"", ""⟩)
        (fun _ => .ok ⟨some "success", .jsUndefined, "o", "x"⟩)
        (.str "i") (.str "p") (.str "")
      = ([], .error (.error ("Failed to deploy branch : " ++ invalidBranchNameMsg))) :=
  ⟨by decide, rfl⟩

/-- Claim C3 (amended): `deployBranch` accepts a branch name (reaching the
single spawn) if and only if the name is non-empty and every character
matches the allowed class (letters, digits, underscore, period, slash, hyphen); otherwise it is rejected fail-closed — no
command is constructed, no process is spawned, and the invalid-branch-name
validation error is raised. -/
theorem c3_branch_validation_amended
    (world : String → List String → Except JsError ExecutionResult)
    (jsonParse : String → Except JsError JsResponse) (inst project : JsStr)
    (s : String) :
    (((deployBranchRun world jsonParse inst project (.str s)).1 = [] ∧
      (deployBranchRun world jsonParse inst project (.str s)).2
        = .error (.error ("Failed to deploy branch " ++ s ++ ": " ++ invalidBranchNameMsg)))
      ↔ ¬(s ≠ "" ∧ ∀ c ∈ s.data, branchCharOk c = true)) ∧
    ((deployBranchRun world jsonParse inst project (.str s)).1 ≠ []
      ↔ (s ≠ "" ∧ ∀ c ∈ s.data, branchCharOk c = true)) := by
  have hchar : branchRegexTest s = true ↔ (s ≠ "" ∧ ∀ c ∈ s.data, branchCharOk c = true) := by
    simp [branchRegexTest, List.all_eq_true]
  constructor
  · constructor
    · intro ⟨h1, _⟩
      intro hvalid
      rw [← hchar] at hvalid
      rw [deployBranchRun, if_neg (by simp [toJsString, hvalid])] at h1
      simp at h1
    · intro hinvalid
      have : branchRegexTest s = false := by
        cases h : branchRegexTest s
        · rfl
        · exact absurd (hchar.mp h) hinvalid
      rw [deployBranchRun, if_pos (by simp [toJsString, this])]
      exact ⟨rfl, rfl⟩
  · constructor
    · intro h1
      by_contra hinvalid
      have : branchRegexTest s = false := by
        cases h : branchRegexTest s
        · rfl
        · exact absurd (hchar.mp h) hinvalid
      rw [deployBranchRun, if_pos (by simp [toJsString, this])] at h1
      simp at h1
    · intro hvalid
      rw [← hchar] at hvalid
      rw [deployBranchRun, if_neg (by simp [toJsString, hvalid])]
      simp

/-- Claim C10: a nullish branch argument is coerced by the regex test to
the string `null` or `undefined`, both of which pass the character-class
test, so `deployBranch` raises no invalid-branch-name validation error and
proceeds to the spawn; and since the `deployBranch` configurator appends
nothing for a falsy value, the command actually executed is exactly the
one built without any deploy verb tokens. -/
theorem c10_nullish_branch_passes_validation_no_deploy_tokens
    (world : String → List String → Except JsError ExecutionResult)
    (jsonParse : String → Except JsError JsResponse) (inst project : JsStr) :
    branchRegexTest (toJsString .jsNull) = true ∧
    branchRegexTest (toJsString .jsUndefined) = true ∧
    (deployBranchRun world jsonParse inst project .jsNull).1
      = [((((LagoonCommand.new.withInstance inst).withProject project).withJsonOutput).baseCommand,
          (((LagoonCommand.new.withInstance inst).withProject project).withJsonOutput).args)] ∧
    (deployBranchRun world jsonParse inst project .jsUndefined).1
      = [((((LagoonCommand.new.withInstance inst).withProject project).withJsonOutput).baseCommand,
          (((LagoonCommand.new.withInstance inst).withProject project).withJsonOutput).args)] := by
  refine ⟨by decide, by decide, ?_, ?_⟩ <;>
    rfl

/-- The confirmed-deletion loop of `deleteEnvironmentFlow` in
`src/interactive.mjs`: a `for ... of` over the selected environments in
which each `deleteEnvironment` call is awaited inside its own try/catch.
The collaborator `del` threads an abstract world state `σ`, which makes
the strict sequencing explicit: each call receives the state left by the
previous one.  The returned list pairs each environment with its captured
outcome. -/
def deleteEnvironmentFlowLoop {σ : Type} (del : σ → String → σ × Except JsError Bool) :
    σ → List String → σ × List (String × Except JsError Bool)
  | w, [] => (w, [])
  | w, env :: rest =>
    let step := del w env
    let next := deleteEnvironmentFlowLoop del step.1 rest
    (next.1, (env, step.2) :: next.2)

/-- Claim C9: the multi-environment deletion flow attempts every selected
environment exactly once, in order (the outcome list projects back to the
input list), and processing of the tail is the same whatever the head's
outcome was — a failed deletion neither aborts nor skips the remaining
ones, and each outcome is captured independently. -/
theorem c9_deletion_loop_sequential_continue_on_error
    {σ : Type} (del : σ → String → σ × Except JsError Bool) :
    (∀ (w : σ) (envs : List String),
      (deleteEnvironmentFlowLoop del w envs).2.map Prod.fst = envs) ∧
    (∀ (w : σ) (env : String) (rest : List String),
      deleteEnvironmentFlowLoop del w (env :: rest)
        = ((deleteEnvironmentFlowLoop del (del w env).1 rest).1,
           (env, (del w env).2) :: (deleteEnvironmentFlowLoop del (del w env).1 rest).2)) := by
  constructor
  · intro w envs
    induction envs generalizing w with
    | nil => rfl
    | cons env rest ih => simp [deleteEnvironmentFlowLoop, ih]
  · intro w env rest
    rfl

/-- Source `gitUrlToGithubUrl` of `src/lagoon-api.mjs`: absent for falsy
input; for `git@github.com:` URLs, strips that prefix and the first
occurrence of `.git` and prepends `https://github.com/`; for any other
URL containing `github.com`, removes the first occurrence of `.git`
(JavaScript `replace` with a string pattern replaces the first
occurrence, not a trailing suffix); absent otherwise. -/
def gitUrlToGithubUrl (gitUrl : JsStr) : Option String :=
  if gitUrl.truthy = false then none
  else
    let s := toJsString gitUrl
    if jsStartsWith s "git@github.com:" then
      some ("https://github.com/" ++ replaceFirst (replaceFirst s "git@github.com:" "") ".git" "")
    else if jsIncludes s "github.com" then
      some (replaceFirst s ".git" "")
    else
      none

/-- Removal of the first occurrence of `pat` from a character list,
written as a direct recursion (independent reformulation used by the
amended specification of claim C8). -/
def removeFirstOccL (pat : List Char) : List Char → List Char
  | [] => []
  | c :: rest =>
    if pat.isPrefixOf (c :: rest) then (c :: rest).drop pat.length
    else c :: removeFirstOccL pat rest

/-- The amended specification of claim C8, following its wording: absent
for nullish or empty input or any URL not containing `github.com`; for
`git@github.com:<path>` URLs, `https://github.com/` followed by `<path>`
with the first occurrence of `.git` removed; for any other URL containing
`github.com`, the URL with the first occurrence of `.git` removed (not
specifically a trailing suffix). -/
def gitUrlToGithubUrlAmendedSpec (gitUrl : JsStr) : Option String :=
  match gitUrl with
  | .jsNull => none
  | .jsUndefined => none
  | .str s =>
    if s = "" then none
    else if jsStartsWith s "git@github.com:" then
      some ("https://github.com/"
        ++ String.mk (removeFirstOccL ".git".data (s.data.drop "git@github.com:".data.length)))
    else if jsIncludes s "github.com" then
      some (String.mk (removeFirstOccL ".git".data s.data))
    else
      none

/-- Reassembling the two halves of `splitAtSub` without the matched
pattern gives exactly the first-occurrence removal. -/
theorem splitAtSub_remove (pat : List Char) (s : List Char) :
    (match splitAtSub pat s with
     | some (pre, suf) => pre ++ suf
     | none => s) = removeFirstOccL pat s := by
  induction s with
  | nil =>
    by_cases h : pat.isPrefixOf ([] : List Char)
    · simp [splitAtSub, removeFirstOccL, h]
    · simp [splitAtSub, removeFirstOccL, h]
  | cons c rest ih =>
    by_cases h : pat.isPrefixOf (c :: rest)
    · simp [splitAtSub, removeFirstOccL, h]
    · cases hs : splitAtSub pat rest with
      | none =>
        rw [hs] at ih
        simp at ih
        simp [splitAtSub, removeFirstOccL, h, hs, ← ih]
      | some pr =>
        obtain ⟨pre, suf⟩ := pr
        rw [hs] at ih
        simp at ih
        simp [splitAtSub, removeFirstOccL, h, hs, ← ih]

/-- `replace` with the empty replacement equals first-occurrence removal. -/
theorem replaceFirst_empty (s pat : String) :
    replaceFirst s pat "" = String.mk (removeFirstOccL pat.data s.data) := by
  have h := splitAtSub_remove pat.data s.data
  unfold replaceFirst
  cases hs : splitAtSub pat.data s.data with
  | none =>
    rw [hs] at h
    simp at h
    rw [← h]
  | some pr =>
    obtain ⟨pre, suf⟩ := pr
    rw [hs] at h
    simp at h
    simp [← h]

/-- When the pattern is a prefix, `splitAtSub` splits at position zero. -/
theorem splitAtSub_head_match (pat l : List Char) (h : pat.isPrefixOf l = true) :
    splitAtSub pat l = some ([], l.drop pat.length) := by
  cases l with
  | nil => simp [splitAtSub, h]
  | cons c rest => simp [splitAtSub, h]

/-- Counterexample to claim C8: the URL `https://github.com/a.git/b`
contains `github.com` and has no trailing `.git` suffix, so by the claim
it should be returned unchanged; the code instead removes the embedded
first occurrence of `.git`, returning a different URL. -/
theorem c8_first_occurrence_counterexample :
    gitUrlToGithubUrl (.str "https://github.com/a.git/b") = some "https://github.com/a/b" ∧
    jsEndsWith "https://github.com/a.git/b" ".git" = false ∧
    ("https://github.com/a.git/b" : String) ≠ "https://github.com/a/b" := by
  refine ⟨by decide, by decide, by decide⟩

/-- Claim C8 (amended): `gitUrlToGithubUrl` returns absent for
null/empty/undefined input and any URL not containing `github.com`; for
`git@github.com:<path>` it returns `https://github.com/<path>` with the
first occurrence of `.git` removed from the path; and for any other URL
containing `github.com` it removes the first occurrence of the substring
`.git` (anywhere, not only as a trailing suffix) and returns the result. -/
theorem c8_git_url_amended (gitUrl : JsStr) :
    gitUrlToGithubUrl gitUrl = gitUrlToGithubUrlAmendedSpec gitUrl := by
  cases gitUrl with
  | jsNull => rfl
  | jsUndefined => rfl
  | str s =>
    by_cases hempty : s = ""
    · subst hempty
      rfl
    · have hts : toJsString (JsStr.str s) = s := rfl
      rw [gitUrlToGithubUrl, gitUrlToGithubUrlAmendedSpec]
      simp only [hts]
      rw [if_neg (by simp [JsStr.truthy, hempty]), if_neg hempty]
      by_cases hpre : jsStartsWith s "git@github.com:" = true
      · rw [if_pos hpre, if_pos hpre]
        have hpre' : "git@github.com:".data.isPrefixOf s.data = true := hpre
        have hdrop : replaceFirst s "git@github.com:" ""
            = String.mk (s.data.drop "git@github.com:".data.length) := by
          unfold replaceFirst
          rw [splitAtSub_head_match _ _ hpre']
          simp
        rw [hdrop, replaceFirst_empty]
      · rw [if_neg hpre, if_neg hpre]
        by_cases hinc : jsIncludes s "github.com" = true
        · rw [if_pos hinc, if_pos hinc, replaceFirst_empty]
        · rw [if_neg hinc, if_neg hinc]
